import Mathlib

/-!
Verification of the reminderbot sources against their specification.

The development shallowly embeds the parts of the program the checked
properties talk about:

* `src/date.rs` — the human datetime parser (`parse_human_datetime` and its
  clause functions), over a time model of UTC instants as `Int` seconds since
  the Unix epoch (second precision, as in the program's `DateTime<Utc>`
  usage).  chrono's civil-calendar accessors (`with_year`, `with_month`,
  `with_day`, `with_hour`, `with_minute`, `with_second`, `weekday`) are
  embedded with the standard civil-from-days / days-from-civil algorithms,
  which is what chrono computes.
* `src/reminders.rs` — the reminder store, as a list of table rows.
* `src/event_handler.rs` — the command handling decision sequence.
* `src/matrix/mod.rs` — the sync loop, as a step function on `SyncState`
  driven by per-iteration fetch outcomes.
* `src/main.rs` — the dispatcher tick interval constant.

Rust regexes are embedded as explicit matchers on `List Char` following the
regex crate's leftmost-first alternation semantics and greedy repetition with
backtracking; anchored regexes match at the start, unanchored ones at the
leftmost matching position.
-/

/-! ## Time model: instants are `Int` seconds since the Unix epoch. -/

/-- Proleptic-Gregorian leap year test, as used by chrono. -/
def isLeapYear (y : Int) : Bool :=
  (y % 4 == 0 && y % 100 != 0) || y % 400 == 0

/-- Number of days in a month of a given year. -/
def daysInMonth (y : Int) (m : Nat) : Nat :=
  if m = 2 then (if isLeapYear y then 29 else 28)
  else if m = 4 ∨ m = 6 ∨ m = 9 ∨ m = 11 then 30
  else 31

/-- Days since 1970-01-01 of the civil date `(y, m, d)` (Hinnant's
days-from-civil algorithm; `/` on `Int` is Euclidean division, which for the
positive divisors used here is floor division). -/
def daysFromCivil (y : Int) (m d : Nat) : Int :=
  let y' : Int := if m ≤ 2 then y - 1 else y
  let era : Int := y' / 400
  let yoe : Int := y' - era * 400
  let mp : Nat := if 2 < m then m - 3 else m + 9
  let doy : Int := (153 * (mp : Int) + 2) / 5 + (d : Int) - 1
  let doe : Int := yoe * 365 + yoe / 4 - yoe / 100 + doy
  era * 146097 + doe - 719468

/-- Civil date `(y, m, d)` of a number of days since 1970-01-01 (Hinnant's
civil-from-days algorithm). -/
def civilFromDays (z0 : Int) : Int × Nat × Nat :=
  let z : Int := z0 + 719468
  let era : Int := z / 146097
  let doe : Int := z - era * 146097
  let yoe : Int := (doe - doe / 1460 + doe / 36524 - doe / 146096) / 365
  let y : Int := yoe + era * 400
  let doy : Int := doe - (365 * yoe + yoe / 4 - yoe / 100)
  let mp : Int := (5 * doy + 2) / 153
  let d : Int := doy - (153 * mp + 2) / 5 + 1
  let m : Int := if mp < 10 then mp + 3 else mp - 9
  (if m ≤ 2 then y + 1 else y, m.toNat, d.toNat)

/-- Calendar year containing the instant. -/
def yearOf (ts : Int) : Int := (civilFromDays (ts / 86400)).1

/-- Calendar month containing the instant. -/
def monthOf (ts : Int) : Nat := (civilFromDays (ts / 86400)).2.1

/-- Calendar day-of-month containing the instant. -/
def dayOf (ts : Int) : Nat := (civilFromDays (ts / 86400)).2.2

/-- chrono `Datelike::with_year`: replace the year, keeping month and day.
Fails when the year is outside chrono's representable range
(`MIN_YEAR = -262144`, `MAX_YEAR = 262143`) or when the resulting date does
not exist (Feb 29 of a non-leap year). -/
def with_year (y ts : Int) : Option Int :=
  let m := monthOf ts
  let d := dayOf ts
  if -262144 ≤ y ∧ y ≤ 262143 ∧ d ≤ daysInMonth y m then
    some (daysFromCivil y m d * 86400 + ts % 86400)
  else none

/-- chrono `Datelike::with_month`: replace the month, keeping year and day.
Fails for month 0 or > 12 and for nonexistent dates. -/
def with_month (m : Nat) (ts : Int) : Option Int :=
  if 1 ≤ m ∧ m ≤ 12 ∧ dayOf ts ≤ daysInMonth (yearOf ts) m then
    some (daysFromCivil (yearOf ts) m (dayOf ts) * 86400 + ts % 86400)
  else none

/-- chrono `Datelike::with_day`: replace the day-of-month, keeping year and
month.  Fails for day 0 or a day past the end of the month. -/
def with_day (d : Nat) (ts : Int) : Option Int :=
  if 1 ≤ d ∧ d ≤ daysInMonth (yearOf ts) (monthOf ts) then
    some (daysFromCivil (yearOf ts) (monthOf ts) d * 86400 + ts % 86400)
  else none

/-- chrono `Timelike::with_hour`: replace the hour, keeping minute and
second.  Fails for an hour > 23. -/
def with_hour (h : Nat) (ts : Int) : Option Int :=
  if h ≤ 23 then
    some (ts - (ts % 86400) / 3600 * 3600 + (h : Int) * 3600)
  else none

/-- chrono `Timelike::with_minute`: replace the minute, keeping hour and
second.  Fails for a minute > 59. -/
def with_minute (m : Nat) (ts : Int) : Option Int :=
  if m ≤ 59 then
    some (ts - (ts % 86400) % 3600 / 60 * 60 + (m : Int) * 60)
  else none

/-- chrono `Timelike::with_second`: replace the second.  Fails for a
second > 59. -/
def with_second (s : Nat) (ts : Int) : Option Int :=
  if s ≤ 59 then
    some (ts - ts % 60 + (s : Int))
  else none

/-- `date.rs::set_to_morning`: `with_hour(9).with_minute(30).with_second(0)`,
each `unwrap`ped.  The chain never fails (9, 30 and 0 are in range), so the
`getD` default is unreachable. -/
def set_to_morning (ts : Int) : Int :=
  (((with_hour 9 ts).bind (with_minute 30)).bind (with_second 0)).getD ts

/-- chrono `Weekday::num_days_from_monday` of the civil date containing the
instant: 0 for Monday through 6 for Sunday.  Day 0 (1970-01-01) was a
Thursday, hence the offset 3. -/
def num_days_from_monday (ts : Int) : Int := (ts / 86400 + 3) % 7

/-- chrono `Weekday::number_from_monday`: 1 for Monday through 7 for
Sunday. -/
def number_from_monday (ts : Int) : Int := num_days_from_monday ts + 1

/-! ## Phrase normalization (`input.trim().to_lowercase()`)

The source trims Unicode whitespace and lowercases with full Unicode rules;
the embedding covers the ASCII range, which is all the grammar's tokens and
every phrase the checked properties mention use. -/

/-- The regex class `\s` / Rust `char::is_whitespace`, on the ASCII range. -/
def isWs (c : Char) : Bool :=
  c = ' ' || c = '\t' || c = '\n' || c = '\r' || c.toNat = 11 || c.toNat = 12

/-- `str::trim`: drop leading and trailing whitespace. -/
def trimL (l : List Char) : List Char :=
  ((l.dropWhile isWs).reverse.dropWhile isWs).reverse

/-- Trim, then lowercase — the normalization at the top of
`parse_human_datetime`. -/
def normalizePhrase (s : String) : List Char :=
  (trimL s.data).map Char.toLower

/-! ## Regex building blocks

Matchers return the unconsumed rest (and captured data) on success.  They
follow the Rust regex crate's leftmost-first alternation preference and
greedy repetition; backtracking is resolved statically where the grammar
makes the fallback infeasible (noted at each matcher). -/

/-- The regex class `[0-9]` (`\d` restricted to ASCII, which is what every
digit use here consumes). -/
def isDigitC (c : Char) : Bool := '0' ≤ c && c ≤ '9'

/-- Match a literal at the head, returning the rest. -/
def stripLit : List Char → List Char → Option (List Char)
  | [], l => some l
  | _ :: _, [] => none
  | p :: ps, c :: cs => if c = p then stripLit ps cs else none

/-- Greedy `\s*`.  Maximal munch is exact here: every token following a
`\s*` in the grammar starts with a non-whitespace character. -/
def dropWs (l : List Char) : List Char := l.dropWhile isWs

/-- Greedy `\s+`. -/
def ws1 (l : List Char) : Option (List Char) :=
  match l with
  | c :: cs => if isWs c then some (dropWs cs) else none
  | [] => none

/-- Greedy `[0-9]+`, maximal munch (exact: no following token starts with a
digit), returning the captured digits and the rest. -/
def digits1 (l : List Char) : Option (List Char × List Char) :=
  match l with
  | c :: cs =>
    if isDigitC c then some (c :: cs.takeWhile isDigitC, cs.dropWhile isDigitC)
    else none
  | [] => none

/-- Numeric value of a digit string. -/
def digitsVal (l : List Char) : Nat :=
  l.foldl (fun acc c => 10 * acc + (c.toNat - 48)) 0

/-- Exactly `n` digits, returning their value and the rest. -/
def digitsN (n : Nat) (l : List Char) : Option (Nat × List Char) :=
  if (l.take n).length = n ∧ (l.take n).all isDigitC then
    some (digitsVal (l.take n), l.drop n)
  else none

/-- First literal of an ordered alternation that matches at the head
(leftmost-first preference), with the rest. -/
def firstLit : List (List Char) → List Char → Option (List Char × List Char)
  | [], _ => none
  | p :: ps, l =>
    match stripLit p l with
    | some rest => some (p, rest)
    | none => firstLit ps l

/-- Unanchored search: the regex engine tries each start position from the
left and takes the first position where the matcher succeeds. -/
def searchHead {α : Type} (m : List Char → Option α) : List Char → Option α
  | [] => m []
  | c :: tl =>
    match m (c :: tl) with
    | some a => some a
    | none => searchHead m tl

/-! ## The relative clause's regex
`^in\s*([0-9]+|half an?|a couple of|a few)\s*(s|seconds?|m|minutes?|h|hours?|d|days?|w|weeks?|months?|years?)`
-/

/-- Count alternation, leftmost-first; `half an?` prefers the `n`.  No
cross-alternative backtracking is possible: the successful alternatives are
mutually exclusive on any given text, and a unit never starts where a longer
count alternative consumed a character a shorter one would leave. -/
def inCount (l : List Char) : Option (List Char × List Char) :=
  match digits1 l with
  | some r => some r
  | none =>
    firstLit ["half an".data, "half a".data, "a couple of".data,
      "a few".data] l

/-- Unit alternation, leftmost-first, each `x?` expanded greedily.  The
single-letter alternatives precede the word forms exactly as in the source
regex, so e.g. `months` is captured as `m` (the `months?` branch is
unreachable). -/
def unitAlts : List (List Char) :=
  ["s".data, "seconds".data, "second".data, "m".data, "minutes".data,
   "minute".data, "h".data, "hours".data, "hour".data, "d".data,
   "days".data, "day".data, "w".data, "weeks".data, "week".data,
   "months".data, "month".data, "years".data, "year".data]

/-- Anchored match of the relative clause's regex, returning captures 1
(count) and 2 (unit). -/
def inMatch (l : List Char) : Option (List Char × List Char) :=
  match stripLit "in".data l with
  | none => none
  | some r1 =>
    match inCount (dropWs r1) with
    | none => none
    | some (capt1, r2) =>
      match firstLit unitAlts (dropWs r2) with
      | none => none
      | some (capt2, _) => some (capt1, capt2)

/-! ## The literal clause's regex `^(tomorrow|day after tomorrow)` -/

/-- Anchored, leftmost-first; returns capture 1. -/
def specialMatch (l : List Char) : Option (List Char) :=
  match stripLit "tomorrow".data l with
  | some _ => some "tomorrow".data
  | none =>
    match stripLit "day after tomorrow".data l with
    | some _ => some "day after tomorrow".data
    | none => none

/-! ## The weekday clause's regex `(on\s+)?((mon|tues?|wed|thu?r?s?|fri|sat?|sun?)(day)?)` (unanchored) -/

/-- The core alternation with each optional letter expanded in greedy
backtracking order (`thu?r?s?` prefers `thurs`, then `thur`, `thus`, `thu`,
`thrs`, `thr`, `ths`, `th`). -/
def weekdayCores : List (List Char) :=
  ["mon".data, "tues".data, "tue".data, "wed".data,
   "thurs".data, "thur".data, "thus".data, "thu".data,
   "thrs".data, "thr".data, "ths".data, "th".data,
   "fri".data, "sat".data, "sa".data, "sun".data, "su".data]

/-- Match `((core)(day)?)` at the head, returning capture 2 (the matched
text).  `(day)?` is greedy and nothing follows it in the regex, so the first
matching core wins outright. -/
def weekdayCapt (l : List Char) : Option (List Char) :=
  match firstLit weekdayCores l with
  | none => none
  | some (core, rest) =>
    match stripLit "day".data rest with
    | some _ => some (core ++ "day".data)
    | none => some core

/-- Match the whole weekday regex at the head: the optional `(on\s+)?` group
is preferred, backtracking to the group-absent reading when no weekday
follows it. -/
def onDayMatchAt (l : List Char) : Option (List Char) :=
  match stripLit "on".data l with
  | some r1 =>
    match ws1 r1 with
    | some r2 =>
      match weekdayCapt r2 with
      | some capt => some capt
      | none => weekdayCapt l
    | none => weekdayCapt l
  | none => weekdayCapt l

/-- chrono's `Weekday::from_str` (via `capt[2].parse::<Weekday>()`): the
whole string must be a short (3-letter) or long weekday name.  Returns
`num_days_from_monday` of the weekday. -/
def weekdayFromStr (l : List Char) : Option Int :=
  if l = "mon".data ∨ l = "monday".data then some 0
  else if l = "tue".data ∨ l = "tuesday".data then some 1
  else if l = "wed".data ∨ l = "wednesday".data then some 2
  else if l = "thu".data ∨ l = "thursday".data then some 3
  else if l = "fri".data ∨ l = "friday".data then some 4
  else if l = "sat".data ∨ l = "saturday".data then some 5
  else if l = "sun".data ∨ l = "sunday".data then some 6
  else none

/-! ## The absolute-date clause's regex `(on\s+)?(\d\d\d\d)-(\d\d)-(\d\d)` (unanchored) -/

/-- Match `(\d\d\d\d)-(\d\d)-(\d\d)` at the head. -/
def ymdAt (l : List Char) : Option (Nat × Nat × Nat) :=
  match digitsN 4 l with
  | none => none
  | some (y, r1) =>
    match r1 with
    | '-' :: r2 =>
      match digitsN 2 r2 with
      | none => none
      | some (m, r3) =>
        match r3 with
        | '-' :: r4 => (digitsN 2 r4).map (fun p => (y, m, p.1))
        | _ => none
    | _ => none

/-- Match the whole date regex at the head, `(on\s+)?` preferred with
backtracking as in the weekday clause. -/
def onDateMatchAt (l : List Char) : Option (Nat × Nat × Nat) :=
  match stripLit "on".data l with
  | some r1 =>
    match ws1 r1 with
    | some r2 =>
      match ymdAt r2 with
      | some t => some t
      | none => ymdAt l
    | none => ymdAt l
  | none => ymdAt l

/-! ## The at-clause regexes `at ((\d\d?):?(\d\d))` and `at (\d+)\s*(am|pm)` (unanchored) -/

/-- Match `:?(\d\d)` at the head (minute capture).  A consumed `:` must be
followed by the two digits; the backtracked `:`-less reading then starts at
the `:` and cannot match a digit, so no real backtracking arises. -/
def colonMm (l : List Char) : Option Nat :=
  match l with
  | ':' :: rest => (digitsN 2 rest).map Prod.fst
  | rest => (digitsN 2 rest).map Prod.fst

/-- Match `(\d\d?):?(\d\d)` at the head: the greedy two-digit hour is
preferred, backtracking to one digit when the rest of the pattern fails
(so `930` reads as hour 9, minute 30, while `9900` reads as hour 99,
minute 00). -/
def hhmmAt (l : List Char) : Option (Nat × Nat) :=
  match l with
  | [] => none
  | c1 :: rest1 =>
    if isDigitC c1 then
      match rest1 with
      | c2 :: rest2 =>
        if isDigitC c2 then
          match colonMm rest2 with
          | some m => some (digitsVal [c1, c2], m)
          | none => (colonMm rest1).map (fun m => (digitsVal [c1], m))
        else (colonMm rest1).map (fun m => (digitsVal [c1], m))
      | [] => none
    else none

/-- Match `at ((\d\d?):?(\d\d))` at the head (the space in the regex is a
literal space). -/
def atTimeAt (l : List Char) : Option (Nat × Nat) :=
  match stripLit "at ".data l with
  | some rest => hhmmAt rest
  | none => none

/-- Unanchored search for the `at HH:MM` / `at HHMM` form. -/
def atTimeSearch : List Char → Option (Nat × Nat) := searchHead atTimeAt

/-- Match `at (\d+)\s*(am|pm)` at the head; the Bool is `capt[2] == "pm"`. -/
def atPmAt (l : List Char) : Option (Nat × Bool) :=
  match stripLit "at ".data l with
  | none => none
  | some r1 =>
    match digits1 r1 with
    | none => none
    | some (ds, r2) =>
      match firstLit ["am".data, "pm".data] (dropWs r2) with
      | some (p, _) => some (digitsVal ds, p = "pm".data)
      | none => none

/-- Unanchored search for the `at H am|pm` form. -/
def atPmSearch : List Char → Option (Nat × Bool) := searchHead atPmAt

/-! ## `date.rs`: the parser itself -/

/-- Result of one base-date clause: a hard failure (Rust `Err(..)`, aborting
the whole parse), no match (`Ok(None)`, falling through to the next clause),
or a matched base date (`Ok(Some(..))`). -/
inductive ClauseRes
  | err : ClauseRes
  | noMatch : ClauseRes
  | found : Int → ClauseRes
deriving DecidableEq

/-- `date.rs::get_duration_from_string`: seconds per unit.  The source
panics on any other string; that arm is unreachable from the unit
alternation and is mapped to 0 here. -/
def get_duration_from_string (s : List Char) : Int :=
  if s = "s".data ∨ s = "second".data ∨ s = "seconds".data then 1
  else if s = "m".data ∨ s = "minute".data ∨ s = "minutes".data then 60
  else if s = "h".data ∨ s = "hour".data ∨ s = "hours".data then 3600
  else if s = "d".data ∨ s = "day".data ∨ s = "days".data then 86400
  else if s = "w".data ∨ s = "week".data ∨ s = "weeks".data then 604800
  else if s = "month".data ∨ s = "months".data then 30 * 86400
  else if s = "year".data ∨ s = "years".data then 365 * 86400
  else 0

/-- Numeric value of capture 1 of the relative clause, as the exact rational
the source's f64 arithmetic denotes.  Integer counts and their products with
the unit sizes stay below 2^53 once the 10^7 bound has passed (and a larger
count fails the bound in both arithmetics), and the only fraction is 1/2, so
rational arithmetic agrees with the source's f64 arithmetic everywhere it is
used.  A plain digit string never fails `parse::<f64>`. -/
def countNumber (c : List Char) : ℚ :=
  if c = "half a".data ∨ c = "half an".data then 1 / 2
  else if c = "a couple of".data then 2
  else if c = "a few".data then 3
  else (digitsVal c : ℚ)

/-- `date.rs::parse_in_clause`.  The `as i64` cast truncates toward zero; the
product is nonnegative, so it is `Rat.floor`.  The `.unwrap()` calls in the
month/year fix-up can panic in the source (a nonexistent resulting date);
panicking paths — which never return a value — are modelled as `err`. -/
def parse_in_clause (l : List Char) (now : Int) : ClauseRes :=
  match inMatch l with
  | none => .noMatch
  | some (capt1, dtype) =>
    let number : ℚ := countNumber capt1
    if 10000000 < number then .err
    else
      let dur : Int := get_duration_from_string dtype
      let date : Int := now + Rat.floor ((dur : ℚ) * number)
      let fixed : Option Int :=
        if 1 ≤ number then
          if dtype = "month".data ∨ dtype = "months".data then
            with_day (dayOf now) date
          else if dtype = "year".data ∨ dtype = "years".data then
            with_year (yearOf now + Rat.floor number) now
          else some date
        else some date
      match fixed with
      | none => .err
      | some date =>
        .found (if now + 48 * 3600 < date then set_to_morning date else date)

/-- `date.rs::parse_special_words`: a phrase starting with `tomorrow` (resp.
`day after tomorrow`) yields `now` plus one (resp. two) days, keeping the
time of day.  The source's third match arm is unreachable. -/
def parse_special_words (l : List Char) (now : Int) : ClauseRes :=
  match specialMatch l with
  | none => .noMatch
  | some capt =>
    if capt = "tomorrow".data then .found (now + 86400)
    else .found (now + 2 * 86400)

/-- `date.rs::parse_on_day_clause`. -/
def parse_on_day_clause (l : List Char) (now : Int) : ClauseRes :=
  match searchHead onDayMatchAt l with
  | none => .noMatch
  | some capt =>
    match weekdayFromStr capt with
    | none => .err
    | some w =>
      let date := now - num_days_from_monday now * 86400 + w * 86400
      let date := if date < now then date + 7 * 86400 else date
      .found (set_to_morning date)

/-- `date.rs::parse_on_date_clause`.  The three captured components always
parse (4 resp. 2 digits); the `with_year`/`with_month`/`with_day` chain is
applied to `now` in that order, each failure aborting. -/
def parse_on_date_clause (l : List Char) (now : Int) : ClauseRes :=
  match searchHead onDateMatchAt l with
  | none => .noMatch
  | some (y, m, d) =>
    match with_year (y : Int) now with
    | none => .err
    | some d1 =>
      match with_month m d1 with
      | none => .err
      | some d2 =>
        match with_day d d2 with
        | none => .err
        | some d3 => .found (set_to_morning d3)

/-- The at-clause refinement step of `date.rs::parse_at_clause`: the
`at HH:MM` / `at HHMM` form is tried first, then `at H am|pm`; with no match
the base date passes through unchanged.  `none` models the `Err` returns for
out-of-range components.  `hours + 12` is a Rust `u32` addition, wrapping
modulo 2^32 (release semantics); `parse::<u32>` itself fails above
`u32::MAX`. -/
def at_refine (l : List Char) (date : Int) : Option Int :=
  match atTimeSearch l with
  | some (h, m) =>
    ((with_hour h date).bind (with_minute m)).bind (with_second 0)
  | none =>
    match atPmSearch l with
    | some (h, pm) =>
      if 4294967295 < h then none
      else if pm then with_hour ((h + 12) % 4294967296) date
      else with_hour h date
    | none => some date

/-- `date.rs::parse_at_clause`: refine the base date by the at-clause, then
add one day if the result lies strictly before `now`. -/
def parse_at_clause (l : List Char) (now date : Int) : Option Int :=
  (at_refine l date).map (fun d => if d < now then d + 86400 else d)

/-- The ordered clause chain of `parse_human_datetime` (lines 20–30): the
first clause that does not report `noMatch` decides. -/
def base_date (l : List Char) (now : Int) : ClauseRes :=
  match parse_in_clause l now with
  | .noMatch =>
    match parse_special_words l now with
    | .noMatch =>
      match parse_on_day_clause l now with
      | .noMatch => parse_on_date_clause l now
      | r => r
    | r => r
  | r => r

/-- `date.rs::parse_human_datetime` on an already-normalized phrase: the
three exact literals first, then the clause chain refined by the
at-clause. -/
def parseCore (l : List Char) (now : Int) : Option Int :=
  if l = "next week".data then
    some (set_to_morning (now + (7 - number_from_monday now + 1) * 86400))
  else if l = "tomorrow".data then some (set_to_morning (now + 86400))
  else if l = "day after tomorrow".data then
    some (set_to_morning (now + 2 * 86400))
  else
    match base_date l now with
    | .err => none
    | .noMatch => none
    | .found d => parse_at_clause l now d

/-- `date.rs::parse_human_datetime`: normalize, then parse.  `none` is the
`Err` outcome (`ParseFailure`). -/
def parse_human_datetime (input : String) (now : Int) : Option Int :=
  parseCore (normalizePhrase input) now

/-! ## `src/reminders.rs`: the reminder store

The store is a SQLite table; it is embedded as the list of its rows, with
the three statements as list operations. -/

/-- `reminders.rs::Reminder` — the struct has no `sent` field; rows carry
it. -/
structure Reminder where
  id : String
  due : Int
  destination : String
  text : String
deriving DecidableEq

/-- One row of the `reminders` table: the `Reminder` columns plus `sent`. -/
structure ReminderRow where
  id : String
  due_ts : Int
  destination : String
  text : String
  sent : Bool
deriving DecidableEq

/-- The `SELECT` column list `id, due_ts, destination, text` rebuilds a
`Reminder` from a row. -/
def ReminderRow.toReminder (r : ReminderRow) : Reminder :=
  { id := r.id, due := r.due_ts, destination := r.destination, text := r.text }

/-- `Reminders::get_reminders_before`:
`SELECT id, due_ts, destination, text FROM reminders WHERE due_ts <= ? AND NOT sent`. -/
def get_reminders_before (db : List ReminderRow) (now : Int) : List Reminder :=
  (db.filter fun row => row.due_ts ≤ now && !row.sent).map ReminderRow.toReminder

/-- `Reminders::delete_reminder` — despite the name, the store's mark-sent:
`UPDATE reminders SET sent = true WHERE id = ?`.  An id matching no row
updates nothing and succeeds. -/
def delete_reminder (db : List ReminderRow) (id : String) : List ReminderRow :=
  db.map fun row => if row.id = id then { row with sent := true } else row

/-- `Reminders::add_reminder`: `INSERT` of the reminder with `sent = false`;
fails when the primary key is taken. -/
def add_reminder (db : List ReminderRow) (r : Reminder) :
    Option (List ReminderRow) :=
  if db.any fun row => row.id = r.id then none
  else some (db ++ [{ id := r.id, due_ts := r.due, destination := r.destination,
                      text := r.text, sent := false }])

/-! ## `src/event_handler.rs`: command handling -/

/-- The user-visible outcome of `EventHandler::handle_event` once the
command regex has matched and produced the `when` and `what` groups. -/
inductive HandleOutcome
  | parseFailedReply : HandleOutcome
  | pastDueReply : HandleOutcome
  | persistFailedReply : HandleOutcome
  | queuedReply : Int → HandleOutcome
deriving DecidableEq

/-- Lines 89–132 of `event_handler.rs`, from the point where the command
regex produced the `when` group: parse it against `now`; on failure reply
with the parse error; when `due < now` reply "Due date in past" without
touching the store; otherwise insert the reminder (replying with the
persistence error if the insert fails) and reply "Queuing message to be
sent at ...".  Returns the updated store and the reply decision. -/
def handle_when (db : List ReminderRow) (id whenPhrase what sender : String)
    (now : Int) : List ReminderRow × HandleOutcome :=
  match parse_human_datetime whenPhrase now with
  | none => (db, .parseFailedReply)
  | some due =>
    if due < now then (db, .pastDueReply)
    else
      match add_reminder db
          { id := id, due := due, destination := sender, text := what } with
      | none => (db, .persistFailedReply)
      | some db' => (db', .queuedReply due)

/-! ## `src/matrix/mod.rs`: the sync loop -/

/-- `matrix::SyncState`; `Default` gives all-false / absent. -/
structure SyncState where
  errored : Bool
  is_live : Bool
  next_batch : Option String
deriving DecidableEq

/-- `SyncState::default()`, the state `Syncer::new` starts from. -/
def SyncState.start : SyncState :=
  { errored := false, is_live := false, next_batch := none }

/-- The field of `matrix::types::SyncResponse` the sync loop consumes; the
`rooms` payload is passed through to the event handler and never read by
the loop itself. -/
structure SyncResponse where
  next_batch : String
deriving DecidableEq

/-- `matrix::types::SyncStreamItem`. -/
structure SyncStreamItem where
  sync_response : SyncResponse
  is_live : Bool
deriving DecidableEq

/-- What one iteration's request pipeline produced before the final `.then`
update: a transport failure, a non-2xx status, a body parse failure, the
cancellation sentinel (`StopError`), or a parsed response. -/
inductive FetchOutcome
  | transportErr : FetchOutcome
  | httpErr : FetchOutcome
  | parseErr : FetchOutcome
  | cancelled : FetchOutcome
  | ok : SyncResponse → FetchOutcome
deriving DecidableEq

/-- `Syncer::do_sync`, lines 124–150: the yielded snapshot captures
`is_live` as observed before the state update; the update sets `errored`
to whether the outcome is an error and, on success only, advances
`next_batch` to the response's token and sets `is_live`. -/
def do_sync (st : SyncState) (o : FetchOutcome) :
    SyncState × Option SyncStreamItem :=
  match o with
  | .ok resp =>
    ({ errored := false, next_batch := some resp.next_batch, is_live := true },
     some { sync_response := resp, is_live := st.is_live })
  | _ => ({ st with errored := true }, none)

/-- `Syncer::run`: iterate `do_sync` over the per-iteration outcomes,
collecting the yielded snapshots; the downstream `take_while` ends the
stream at the cancellation sentinel. -/
def run_sync (st : SyncState) : List FetchOutcome → SyncState × List SyncStreamItem
  | [] => (st, [])
  | o :: rest =>
    let step := do_sync st o
    match o with
    | .cancelled => (step.1, [])
    | _ =>
      let tail := run_sync step.1 rest
      (tail.1, step.2.toList ++ tail.2)

/-! ## `src/main.rs`: the dispatcher ticker -/

/-- The interval driving the dispatch loop in `main.rs::spawn_reminder_loop`:
`Timer::default().interval(Duration::from_millis(200))`. -/
def reminder_tick_interval_millis : Nat := 200

/-! # Properties

First some shared lemmas about the time model and the at-clause, then one
theorem per checked property (with counterexamples and witnesses where
applicable). -/

/-- Closed form of `set_to_morning`: the time of day becomes 09:30:00. -/
theorem set_to_morning_eq (ts : Int) :
    set_to_morning ts = ts - ts % 86400 + 34200 := by
  simp only [set_to_morning, with_hour, with_minute, with_second]
  norm_num [Option.bind]
  omega

/-- Setting a date at least one day ahead of `t` to the following morning
lands strictly after `t`. -/
theorem set_to_morning_add_day_gt (t k : Int) (hk : 1 ≤ k) :
    t < set_to_morning (t + k * 86400) := by
  rw [set_to_morning_eq]
  omega

/-- The day count of the `next week` branch is at least one. -/
theorem next_week_k_ge_one (t : Int) : 1 ≤ 7 - number_from_monday t + 1 := by
  unfold number_from_monday num_days_from_monday
  omega

/-- Whatever the at-clause refinement produced, `parse_at_clause` returns
either a value not before `now` or a value obtained by the add-a-day rule
from one strictly before `now`. -/
theorem parse_at_clause_cases (l : List Char) (now date r : Int)
    (h : parse_at_clause l now date = some r) :
    now ≤ r ∨ ∃ d, d < now ∧ r = d + 86400 := by
  unfold parse_at_clause at h
  cases hre : at_refine l date with
  | none => rw [hre] at h; exact absurd h (by simp)
  | some d =>
    rw [hre] at h
    simp only [Option.map_some', Option.some.injEq] at h
    by_cases hd : d < now
    · exact Or.inr ⟨d, hd, by rw [← h, if_pos hd]⟩
    · refine Or.inl ?_
      rw [← h, if_neg hd]
      omega

/-- C1 counterexample: the phrase `on 2010-01-01` parses successfully at
`t = 2014-07-08T09:10:11Z` to `2010-01-02T09:30:00Z`, a result more than
one day (indeed years) before `t` — so a successful parse is not confined
to results after `t` or within one day before it. -/
theorem past_date_parses_far_in_past :
    parse_human_datetime "on 2010-01-01" 1404810611 = some 1262424600 ∧
    (1262424600 : Int) + 86400 < 1404810611 :=
  ⟨by decide, by decide⟩

/-- C1 amended: every successful parse yields either a result at or after
`t`, or the result of the end-of-parse add-a-day rule, i.e. one day after
some pre-rule value strictly before `t` — which guarantees a result after
`t` only when that value is within one day of `t`, and an absolute past
date is not. -/
theorem parse_result_ge_or_day_added :
    ∀ (p : String) (t r : Int), parse_human_datetime p t = some r →
      t ≤ r ∨ ∃ d, d < t ∧ r = d + 86400 := by
  intro p t r h
  unfold parse_human_datetime parseCore at h
  split at h
  · simp only [Option.some.injEq] at h
    subst h
    exact Or.inl (le_of_lt (set_to_morning_add_day_gt t _ (next_week_k_ge_one t)))
  · split at h
    · simp only [Option.some.injEq] at h
      subst h
      have h1 := set_to_morning_add_day_gt t 1 le_rfl
      rw [one_mul] at h1
      exact Or.inl (le_of_lt h1)
    · split at h
      · simp only [Option.some.injEq] at h
        subst h
        exact Or.inl (le_of_lt (set_to_morning_add_day_gt t 2 (by norm_num)))
      · split at h
        · exact absurd h (by simp)
        · exact absurd h (by simp)
        · exact parse_at_clause_cases _ _ _ _ h

/-- Witness for the C1 amended theorem at a concrete input. -/
theorem parse_result_ge_or_day_added_witness :
    parse_human_datetime "tomorrow" 0 = some 120600 ∧
    ((0 : Int) ≤ 120600 ∨ ∃ d, d < 0 ∧ (120600 : Int) = d + 86400) :=
  ⟨by decide, parse_result_ge_or_day_added "tomorrow" 0 120600 (by decide)⟩

/-- The count capture `0` denotes the rational 0. -/
theorem countNumber_zero : countNumber ['0'] = 0 := by
  unfold countNumber
  rw [if_neg (by decide), if_neg (by decide), if_neg (by decide)]
  rw [show digitsVal ['0'] = 0 from by decide]
  norm_num

/-- The relative clause on `in 0 seconds` yields exactly `now`. -/
theorem in0_clause (t : Int) :
    parse_in_clause ("in 0 seconds".data) t = .found t := by
  have hm : inMatch ("in 0 seconds".data) = some (['0'], ['s']) := by
    decide
  unfold parse_in_clause
  simp only [hm, countNumber_zero]
  rw [if_neg (show ¬ (10000000 : ℚ) < 0 from by norm_num)]
  rw [if_neg (show ¬ (1 : ℚ) ≤ 0 from by norm_num)]
  rw [show Rat.floor ((get_duration_from_string ['s'] : ℚ) * 0) = 0 from by
    rw [mul_zero]; rfl]
  show ClauseRes.found (if t + 48 * 3600 < t + 0 then set_to_morning (t + 0)
    else t + 0) = ClauseRes.found t
  rw [if_neg (by omega), add_zero]

/-- `parse_human_datetime` on `in 0 seconds` (already normalized) returns
`now` itself: the base date is exactly `now`, no at-clause matches, and the
add-a-day rule does not fire since the result is not strictly before
`now`. -/
theorem in0_core (t : Int) :
    parse_human_datetime "in 0 seconds" t = some t := by
  have hn : normalizePhrase "in 0 seconds" = "in 0 seconds".data := by decide
  unfold parse_human_datetime
  rw [hn]
  unfold parseCore
  rw [if_neg (by decide), if_neg (by decide), if_neg (by decide)]
  have hb : base_date ("in 0 seconds".data) t = .found t := by
    unfold base_date
    rw [in0_clause]
  rw [hb]
  show parse_at_clause ("in 0 seconds".data) t t = some t
  unfold parse_at_clause at_refine
  have hT : atTimeSearch ("in 0 seconds".data) = none := by decide
  have hP : atPmSearch ("in 0 seconds".data) = none := by decide
  rw [hT, hP]
  simp only [Option.map_some', Option.some.injEq]
  rw [if_neg (by omega)]

/-- C5 counterexample: at `t = 0`, `in 0 seconds` parses to exactly `0`,
not to `86400` — the end-of-parse rule adds a day only when the result is
strictly before `now`, and here it equals `now`, so no day is added. -/
theorem in_zero_seconds_no_day_added :
    parse_human_datetime "in 0 seconds" 0 = some 0 ∧
    parse_human_datetime "in 0 seconds" 0 ≠ some 86400 :=
  ⟨in0_core 0, by rw [in0_core 0]; decide⟩

/-- C5 amended: for every instant `t`, `in 0 seconds` succeeds and yields
exactly `t`; the past-due rule does not add a day, because it requires the
result to be strictly before `t`. -/
theorem in_zero_seconds_exact (t : Int) :
    parse_human_datetime "in 0 seconds" t = some t :=
  in0_core t

/-- C2 counterexample: a command whose `when` phrase parses to `due = now`
(here `in 0 seconds` at `now = 0`) is **not** answered with the past-due
reply — the handler's test is `due < now`, so the boundary `due = now`
proceeds to insertion. -/
theorem due_eq_now_is_queued :
    (handle_when [] "id1" "in 0 seconds" "water plants" "@alice:example.org"
        0).2 ≠ HandleOutcome.pastDueReply ∧
    parse_human_datetime "in 0 seconds" 0 = some 0 ∧ (0 : Int) ≤ 0 := by
  refine ⟨?_, in0_core 0, le_refl 0⟩
  unfold handle_when
  rw [in0_core 0]
  decide

/-- C2 amended: for a command whose `when` phrase parses to `due`, the
handler replies "Due date in past" exactly when `due < now` (not
`due ≤ now`); in that case the store is left untouched.  At the boundary
`due = now` the reminder is inserted. -/
theorem past_due_reply_iff :
    ∀ (db : List ReminderRow) (idv whenv whatv sender : String) (now due : Int),
      parse_human_datetime whenv now = some due →
      ((handle_when db idv whenv whatv sender now).2 =
          HandleOutcome.pastDueReply ↔ due < now) ∧
      (due < now → (handle_when db idv whenv whatv sender now).1 = db) := by
  intro db idv whenv whatv sender now due h
  unfold handle_when
  simp only [h]
  by_cases hd : due < now
  · rw [if_pos hd]
    exact ⟨by simp [hd], fun _ => rfl⟩
  · rw [if_neg hd]
    refine ⟨?_, fun hlt => absurd hlt hd⟩
    cases ha : add_reminder db
        { id := idv, due := due, destination := sender, text := whatv } with
    | none => simp [hd]
    | some db2 => simp [hd]

/-- Witness for the C2 amended theorem at a concrete input. -/
theorem past_due_reply_iff_witness :
    ((handle_when [] "a" "in 0 seconds" "w" "s" 0).2 =
        HandleOutcome.pastDueReply ↔ (0 : Int) < 0) ∧
    ((0 : Int) < 0 → (handle_when [] "a" "in 0 seconds" "w" "s" 0).1 = []) :=
  past_due_reply_iff [] "a" "in 0 seconds" "w" "s" 0 0 (in0_core 0)

/-- From a live sync state, every snapshot the rest of the run emits is
live: success preserves liveness and copies the pre-update value, failure
leaves the state alone. -/
theorem run_sync_all_live (os : List FetchOutcome) :
    ∀ st, st.is_live = true → ∀ s ∈ (run_sync st os).2, s.is_live = true := by
  induction os with
  | nil => intro st h s hs; simp [run_sync] at hs
  | cons o tail ih =>
    intro st h s hs
    cases o with
    | ok resp =>
      simp only [run_sync, do_sync, Option.toList_some, List.cons_append,
        List.nil_append, List.mem_cons] at hs
      cases hs with
      | inl hs => rw [hs]; exact h
      | inr hs => exact ih _ rfl s hs
    | cancelled => simp [run_sync] at hs
    | transportErr =>
      exact ih { st with errored := true } h s
        (by simpa [run_sync, do_sync] using hs)
    | httpErr =>
      exact ih { st with errored := true } h s
        (by simpa [run_sync, do_sync] using hs)
    | parseErr =>
      exact ih { st with errored := true } h s
        (by simpa [run_sync, do_sync] using hs)

/-- From a not-yet-live state, if the run emits any snapshot, the first one
carries the pre-advance `is_live = false` and all later ones are live. -/
theorem run_sync_head_not_live (os : List FetchOutcome) :
    ∀ st, st.is_live = false → ∀ s rest, (run_sync st os).2 = s :: rest →
      s.is_live = false ∧ ∀ s' ∈ rest, s'.is_live = true := by
  induction os with
  | nil => intro st h s rest he; simp [run_sync] at he
  | cons o tail ih =>
    intro st h s rest he
    cases o with
    | ok resp =>
      simp only [run_sync, do_sync, Option.toList_some, List.cons_append,
        List.nil_append, List.cons.injEq] at he
      obtain ⟨hs, hrest⟩ := he
      constructor
      · rw [← hs]; exact h
      · rw [← hrest]
        exact run_sync_all_live tail _ rfl
    | cancelled => simp [run_sync] at he
    | transportErr =>
      exact ih { st with errored := true } h s rest
        (by simpa [run_sync, do_sync] using he)
    | httpErr =>
      exact ih { st with errored := true } h s rest
        (by simpa [run_sync, do_sync] using he)
    | parseErr =>
      exact ih { st with errored := true } h s rest
        (by simpa [run_sync, do_sync] using he)

/-- C3: over any run of the sync loop from its start state, the very first
emitted snapshot carries `is_live = false` and every subsequent one carries
`is_live = true` — the emitted value is the state value observed before the
iteration advances it. -/
theorem sync_snapshots_liveness :
    ∀ (os : List FetchOutcome) (s : SyncStreamItem) (rest : List SyncStreamItem),
      (run_sync SyncState.start os).2 = s :: rest →
      s.is_live = false ∧ ∀ s' ∈ rest, s'.is_live = true :=
  fun os s rest h => run_sync_head_not_live os SyncState.start rfl s rest h

/-- Witness for C3 on a concrete run: one failure, then two successes. -/
theorem sync_snapshots_liveness_witness :
    (run_sync SyncState.start [FetchOutcome.transportErr,
        FetchOutcome.ok { next_batch := "a" },
        FetchOutcome.ok { next_batch := "b" }]).2 =
      [{ sync_response := { next_batch := "a" }, is_live := false },
       { sync_response := { next_batch := "b" }, is_live := true }] ∧
    (SyncStreamItem.is_live { sync_response := { next_batch := "a" }, is_live := false } = false ∧
      ∀ s' ∈ [({ sync_response := { next_batch := "b" }, is_live := true } : SyncStreamItem)], s'.is_live = true) := by
  constructor
  · decide
  · exact sync_snapshots_liveness
      [FetchOutcome.transportErr, FetchOutcome.ok { next_batch := "a" },
       FetchOutcome.ok { next_batch := "b" }]
      { sync_response := { next_batch := "a" }, is_live := false }
      [{ sync_response := { next_batch := "b" }, is_live := true }]
      (by decide)

/-- A run consisting only of failed iterations leaves `next_batch`
untouched. -/
theorem run_sync_failures_keep_next_batch (os : List FetchOutcome) :
    ∀ st, (∀ o ∈ os, ∀ resp, o ≠ FetchOutcome.ok resp) →
      (run_sync st os).1.next_batch = st.next_batch := by
  induction os with
  | nil => intro st _; rfl
  | cons o tail ih =>
    intro st hfail
    cases o with
    | ok resp => exact absurd rfl (hfail _ (by simp) resp)
    | cancelled => rfl
    | transportErr =>
      show (run_sync { st with errored := true } tail).1.next_batch =
        st.next_batch
      rw [ih _ fun o' ho' resp => hfail o' (List.mem_cons_of_mem _ ho') resp]
    | httpErr =>
      show (run_sync { st with errored := true } tail).1.next_batch =
        st.next_batch
      rw [ih _ fun o' ho' resp => hfail o' (List.mem_cons_of_mem _ ho') resp]
    | parseErr =>
      show (run_sync { st with errored := true } tail).1.next_batch =
        st.next_batch
      rw [ih _ fun o' ho' resp => hfail o' (List.mem_cons_of_mem _ ho') resp]

/-- C7: one sync iteration advances `next_batch` exactly on a successfully
received and parsed response — to that response's token — and leaves it
unchanged on any transport, HTTP or parse failure (and on cancellation);
consecutive failures therefore never change it. -/
theorem sync_next_batch_only_on_success :
    ∀ (st : SyncState) (o : FetchOutcome) (os : List FetchOutcome),
      ((∀ resp, o ≠ FetchOutcome.ok resp) →
        (do_sync st o).1.next_batch = st.next_batch) ∧
      (∀ resp, o = FetchOutcome.ok resp →
        (do_sync st o).1.next_batch = some resp.next_batch) ∧
      ((∀ o' ∈ os, ∀ resp, o' ≠ FetchOutcome.ok resp) →
        (run_sync st os).1.next_batch = st.next_batch) := by
  intro st o os
  refine ⟨?_, ?_, run_sync_failures_keep_next_batch os st⟩
  · intro h
    cases o with
    | ok resp => exact absurd rfl (h resp)
    | cancelled => rfl
    | transportErr => rfl
    | httpErr => rfl
    | parseErr => rfl
  · intro resp he
    subst he
    rfl

/-- Witness for C7 at concrete inputs: a failure keeps `next_batch`, a
success sets it, and a two-failure run keeps it. -/
theorem sync_next_batch_only_on_success_witness :
    (do_sync SyncState.start FetchOutcome.transportErr).1.next_batch = none ∧
    (do_sync SyncState.start (FetchOutcome.ok ⟨"nb"⟩)).1.next_batch =
      some "nb" ∧
    (run_sync SyncState.start
      [FetchOutcome.transportErr, FetchOutcome.parseErr]).1.next_batch =
      none := by
  refine ⟨?_, ?_, ?_⟩
  · exact (sync_next_batch_only_on_success SyncState.start
      FetchOutcome.transportErr []).1
      (fun resp h => FetchOutcome.noConfusion h)
  · exact (sync_next_batch_only_on_success SyncState.start
      (FetchOutcome.ok ⟨"nb"⟩) []).2.1 ⟨"nb"⟩ rfl
  · exact (sync_next_batch_only_on_success SyncState.start
      FetchOutcome.transportErr
      [FetchOutcome.transportErr, FetchOutcome.parseErr]).2.2
      (fun o' ho' resp he => by subst he; simp at ho')

/-- C4: `due_before(now)` returns exactly the projections of the rows with
`due ≤ now` and `sent = false`; in particular it never returns a row with
`sent = true` or `due > now`. -/
theorem due_before_exact :
    ∀ (db : List ReminderRow) (now : Int) (r : Reminder),
      r ∈ get_reminders_before db now ↔
        ∃ row ∈ db, row.sent = false ∧ row.due_ts ≤ now ∧
          r = row.toReminder := by
  intro db now r
  simp only [get_reminders_before, List.mem_map, List.mem_filter,
    Bool.and_eq_true, decide_eq_true_eq, Bool.not_eq_true']
  constructor
  · rintro ⟨row, ⟨hmem, hdue, hsent⟩, heq⟩
    exact ⟨row, hmem, hsent, hdue, heq.symm⟩
  · rintro ⟨row, hmem, hsent, hdue, heq⟩
    exact ⟨row, ⟨hmem, hdue, hsent⟩, heq.symm⟩

/-- Marking the same id twice is the same as marking it once. -/
theorem delete_reminder_idem (db : List ReminderRow) (id : String) :
    delete_reminder (delete_reminder db id) id = delete_reminder db id := by
  unfold delete_reminder
  rw [List.map_map]
  apply List.map_congr_left
  intro row _
  by_cases h : row.id = id
  · simp [Function.comp, h]
  · simp [Function.comp, h]

/-- Marking an id no row carries leaves the table unchanged. -/
theorem delete_reminder_missing_noop (db : List ReminderRow) (id : String)
    (h : ∀ row ∈ db, row.id ≠ id) : delete_reminder db id = db := by
  induction db with
  | nil => rfl
  | cons row tl ih =>
    simp only [delete_reminder, List.map_cons]
    rw [if_neg (h row (by simp))]
    have := ih fun r hr => h r (List.mem_cons_of_mem _ hr)
    simp only [delete_reminder] at this
    rw [this]

/-- C8: `mark_sent` (the store's `delete_reminder`) is idempotent — two
successive calls produce the same store state as one — and a call with an
id not present in the store succeeds as a no-op. -/
theorem mark_sent_idempotent :
    ∀ (db : List ReminderRow) (id : String),
      delete_reminder (delete_reminder db id) id = delete_reminder db id ∧
      ((∀ row ∈ db, row.id ≠ id) → delete_reminder db id = db) :=
  fun db id =>
    ⟨delete_reminder_idem db id, delete_reminder_missing_noop db id⟩

/-- Witness for C8 at a concrete store. -/
theorem mark_sent_idempotent_witness :
    (delete_reminder (delete_reminder
        [{ id := "a", due_ts := 5, destination := "d", text := "t", sent := false }] "x") "x" =
      delete_reminder
        [{ id := "a", due_ts := 5, destination := "d", text := "t", sent := false }] "x") ∧
    delete_reminder
        [{ id := "a", due_ts := 5, destination := "d", text := "t", sent := false }] "x" =
      [{ id := "a", due_ts := 5, destination := "d", text := "t", sent := false }] := by
  have h := mark_sent_idempotent
    [{ id := "a", due_ts := 5, destination := "d", text := "t", sent := false }] "x"
  exact ⟨h.1, h.2 (by decide)⟩

/-- C6 counterexample: the dispatch ticker interval is not 500 ms. -/
theorem tick_interval_not_500 : reminder_tick_interval_millis ≠ 500 := by
  decide

/-- C6 amended: the dispatch ticker fires every 200 ms. -/
theorem tick_interval_is_200 : reminder_tick_interval_millis = 200 := rfl

/-- C9 counterexample: in `next tuesday` the weekday token occurs only
mid-string (the regex finds no match at the start of the phrase), yet the
weekday clause matches and the whole parse resolves through it. -/
theorem weekday_clause_matches_mid_string :
    parse_on_day_clause ("next tuesday".data) 1404810611 =
      ClauseRes.found 1404811800 ∧
    onDayMatchAt ("next tuesday".data) = none ∧
    parse_human_datetime "next tuesday" 1404810611 = some 1404811800 :=
  ⟨by decide, by decide, by decide⟩

/-- An unanchored search succeeds exactly when the pattern matches at some
start position. -/
theorem searchHead_ne_none_iff {α : Type} (m : List Char → Option α) :
    ∀ l : List Char, searchHead m l ≠ none ↔ ∃ i, m (l.drop i) ≠ none := by
  intro l
  induction l with
  | nil =>
    constructor
    · intro h
      exact ⟨0, h⟩
    · rintro ⟨i, hi⟩
      simp only [List.drop_nil] at hi
      exact hi
  | cons c tl ih =>
    cases hm : m (c :: tl) with
    | some a =>
      constructor
      · intro _
        exact ⟨0, by simp [hm]⟩
      · intro _
        simp [searchHead, hm]
    | none =>
      constructor
      · intro h
        simp only [searchHead, hm] at h
        obtain ⟨i, hi⟩ := ih.mp h
        exact ⟨i + 1, by simpa using hi⟩
      · rintro ⟨i, hi⟩
        cases i with
        | zero =>
          simp only [List.drop_zero] at hi
          exact absurd hm hi
        | succ j =>
          have hj : searchHead m tl ≠ none := ih.mpr ⟨j, by simpa using hi⟩
          simp [searchHead, hm, hj]

/-- C9 amended: the weekday clause is unanchored — it fires exactly when
the `(on )?weekday(day)?` pattern matches at some (not necessarily initial)
position of the phrase, so a mid-string weekday abbreviation does resolve
(or error) through the weekday clause. -/
theorem weekday_clause_unanchored :
    ∀ (l : List Char) (t : Int),
      parse_on_day_clause l t ≠ ClauseRes.noMatch ↔
        ∃ i, onDayMatchAt (l.drop i) ≠ none := by
  intro l t
  rw [← searchHead_ne_none_iff onDayMatchAt l]
  unfold parse_on_day_clause
  cases h : searchHead onDayMatchAt l with
  | none => simp
  | some capt =>
    cases hw : weekdayFromStr capt with
    | none => simp [hw]
    | some w => simp [hw]

/-- C10 counterexample: `tomorrow at 9900` begins with `tomorrow` and is not
exactly that literal, yet the parser fails (the at-clause hour 99 is out of
range) — so such phrases do not always parse successfully. -/
theorem tomorrow_at_9900_fails :
    ("tomorrow".data).isPrefixOf (normalizePhrase "tomorrow at 9900") = true ∧
    normalizePhrase "tomorrow at 9900" ≠ "tomorrow".data ∧
    parse_human_datetime "tomorrow at 9900" 1404810611 = none :=
  ⟨by decide, by decide, by decide⟩

/-- C10 amended: a normalized phrase strictly extending `tomorrow` (resp.
`day after tomorrow`) resolves through the prefix clause with base date
`t + 1` day (resp. `t + 2` days) keeping `t`'s own hour, minute and second —
not 09:30 — and only the at-clause refinement is applied to it (which may
also fail, as the counterexample shows); with no at-clause match of either
form the result is exactly the base date. -/
theorem tomorrow_prefix_keeps_clock :
    ∀ (rest : List Char) (t : Int), rest ≠ [] →
      (parseCore ("tomorrow".data ++ rest) t =
        parse_at_clause ("tomorrow".data ++ rest) t (t + 86400)) ∧
      (atTimeSearch ("tomorrow".data ++ rest) = none →
        atPmSearch ("tomorrow".data ++ rest) = none →
        parseCore ("tomorrow".data ++ rest) t = some (t + 86400)) ∧
      (parseCore ("day after tomorrow".data ++ rest) t =
        parse_at_clause ("day after tomorrow".data ++ rest) t
          (t + 2 * 86400)) := by
  intro rest t hrest
  have hlen : ∀ p : List Char, p ++ rest ≠ p := by
    intro p h
    have h1 := congrArg List.length h
    rw [List.length_append] at h1
    exact hrest (List.length_eq_zero.mp (by omega))
  have hheadT : ("tomorrow".data ++ rest).head? = some 't' := rfl
  have hheadD : ("day after tomorrow".data ++ rest).head? = some 'd' := rfl
  have hne1 : "tomorrow".data ++ rest ≠ "next week".data := by
    intro h
    have h0 := congrArg List.head? h
    rw [hheadT] at h0
    exact absurd h0 (by decide)
  have hne2 : "tomorrow".data ++ rest ≠ "tomorrow".data := hlen _
  have hne3 : "tomorrow".data ++ rest ≠ "day after tomorrow".data := by
    intro h
    have h0 := congrArg List.head? h
    rw [hheadT] at h0
    exact absurd h0 (by decide)
  have hd1 : "day after tomorrow".data ++ rest ≠ "next week".data := by
    intro h
    have h0 := congrArg List.head? h
    rw [hheadD] at h0
    exact absurd h0 (by decide)
  have hd2 : "day after tomorrow".data ++ rest ≠ "tomorrow".data := by
    intro h
    have h0 := congrArg List.head? h
    rw [hheadD] at h0
    exact absurd h0 (by decide)
  have hd3 : "day after tomorrow".data ++ rest ≠ "day after tomorrow".data :=
    hlen _
  refine ⟨?_, ?_, ?_⟩
  · unfold parseCore
    rw [if_neg hne1, if_neg hne2, if_neg hne3]
    rfl
  · intro hT hP
    unfold parseCore
    rw [if_neg hne1, if_neg hne2, if_neg hne3]
    show parse_at_clause ("tomorrow".data ++ rest) t (t + 86400) =
      some (t + 86400)
    unfold parse_at_clause at_refine
    rw [hT, hP]
    simp only [Option.map_some', Option.some.injEq]
    rw [if_neg (by omega)]
  · unfold parseCore
    rw [if_neg hd1, if_neg hd2, if_neg hd3]
    rfl

/-- Witness for the C10 amended theorem at a concrete input. -/
theorem tomorrow_prefix_keeps_clock_witness :
    (parseCore ("tomorrow".data ++ " never".data) 0 =
      parse_at_clause ("tomorrow".data ++ " never".data) 0 (0 + 86400)) ∧
    (atTimeSearch ("tomorrow".data ++ " never".data) = none →
      atPmSearch ("tomorrow".data ++ " never".data) = none →
      parseCore ("tomorrow".data ++ " never".data) 0 = some (0 + 86400)) ∧
    (parseCore ("day after tomorrow".data ++ " never".data) 0 =
      parse_at_clause ("day after tomorrow".data ++ " never".data) 0
        (0 + 2 * 86400)) :=
  tomorrow_prefix_keeps_clock (" never".data) 0 (by decide)
